import Mathlib

/-!
Verification of the `logic-ai` application (`src/app.py`).

The program is a three-stage pipeline: `translate_to_asp` calls a remote
generative-language service and extracts an ASP program from the markdown
response, `run_clingo` runs the program on the clingo solver, and
`interpret_solution` calls the remote service again to explain the solver
output.  A Streamlit button handler sequences the three stages.

Embedding choices:
* Strings are `List Char`.  The Python string operations used by the code
  (`"```" in text`, `text.split("```")`, `.replace("asp", "")`,
  `.replace("clingo", "")`, `.strip()`) are embedded as structurally
  recursive functions on `List Char` with Python's left-to-right,
  non-overlapping scan semantics.
* The two remote calls and the clingo engine are external services; each is
  abstracted by a value describing the observable outcome of the call
  (normal return with a payload, or a raised exception carrying a message).
  The repository's own code — everything around those calls — is embedded
  faithfully.
* Fallible indexing (`split("```")[1]`) is modelled in `Except`, so that an
  out-of-range index is an explicit error value rather than an implicit one.
* Streamlit UI calls (`st.error`, `st.warning`) are modelled as emitted
  events, and the button handler records which pipeline stages it invoked.
-/

/-- Python `str` truthiness of the whitespace set used by `str.strip()`:
the six ASCII whitespace characters. -/
def isPySpace (c : Char) : Bool :=
  c = ' ' || c = '\t' || c = '\n' || c = '\r' || c = '\x0b' || c = '\x0c'

/-- Embedding of Python `s.strip()`: drop leading and trailing whitespace. -/
def pyStrip (s : List Char) : List Char :=
  ((s.dropWhile isPySpace).reverse.dropWhile isPySpace).reverse

/-- Embedding of Python `"```" in text` (app.py line 40): scan left to right
for an occurrence of three consecutive backticks. -/
def containsFence : List Char → Bool
  | '`' :: '`' :: '`' :: _ => true
  | _ :: t => containsFence t
  | [] => false

/-- Embedding of Python `text.split("```")` (app.py line 42): split on
non-overlapping occurrences of the three-backtick delimiter, scanning left
to right. -/
def splitFence : List Char → List (List Char)
  | '`' :: '`' :: '`' :: t => [] :: splitFence t
  | c :: t =>
    match splitFence t with
    | [] => [[c]]
    | h :: r => (c :: h) :: r
  | [] => [[]]

/-- Number of non-overlapping occurrences of the three-backtick delimiter,
counted by the same left-to-right scan that `splitFence` uses. -/
def countFence : List Char → Nat
  | '`' :: '`' :: '`' :: t => countFence t + 1
  | _ :: t => countFence t
  | [] => 0

/-- Embedding of Python `s.replace("asp", "")` (app.py line 42): delete every
non-overlapping occurrence of `"asp"`, scanning left to right. -/
def removeAsp : List Char → List Char
  | 'a' :: 's' :: 'p' :: t => removeAsp t
  | c :: t => c :: removeAsp t
  | [] => []

/-- Occurrence test for the substring `"asp"`, matching the scan of
`removeAsp`. -/
def containsAsp : List Char → Bool
  | 'a' :: 's' :: 'p' :: _ => true
  | _ :: t => containsAsp t
  | [] => false

/-- Embedding of Python `s.replace("clingo", "")` (app.py line 42): delete
every non-overlapping occurrence of `"clingo"`, scanning left to right. -/
def removeClingo : List Char → List Char
  | 'c' :: 'l' :: 'i' :: 'n' :: 'g' :: 'o' :: t => removeClingo t
  | c :: t => c :: removeClingo t
  | [] => []

/-- Occurrence test for the substring `"clingo"`, matching the scan of
`removeClingo`. -/
def containsClingo : List Char → Bool
  | 'c' :: 'l' :: 'i' :: 'n' :: 'g' :: 'o' :: _ => true
  | _ :: t => containsClingo t
  | [] => false

/-- Embedding of Python `"YOUR_API" in API_KEY` (app.py line 11). -/
def containsYourApi : List Char → Bool
  | 'Y' :: 'O' :: 'U' :: 'R' :: '_' :: 'A' :: 'P' :: 'I' :: _ => true
  | _ :: t => containsYourApi t
  | [] => false

/-- Message passed to `st.warning` for an empty query (app.py line 113). -/
def enterQuestionMsg : List Char := "Please enter a question.".toList

/-- Message passed to `st.error` for a missing or placeholder API key
(app.py line 12). -/
def apiKeyMissingMsg : List Char :=
  "🚨 API Key is missing. Please check your Streamlit secrets.".toList

/-- Text of Python `f"Translation Error: {e}"` (app.py line 45). -/
def translationErrorText (e : List Char) : List Char :=
  "Translation Error: ".toList ++ e

/-- Text of Python `f"Clingo Error: {e}"` (app.py line 70). -/
def clingoErrorText (e : List Char) : List Char :=
  "Clingo Error: ".toList ++ e

/-- Sentinel returned by `run_clingo` for an unsatisfiable program
(app.py line 68). -/
def unsatMessage : List Char :=
  "UNSATISFIABLE (No solution found)".toList

/-- Text of Python `f"Interpretation Error: {e}"` (app.py line 96). -/
def interpretationErrorText (e : List Char) : List Char :=
  "Interpretation Error: ".toList ++ e

/-- Observable outcome of one remote `client.models.generate_content` call:
either it returns a response whose `.text` field is the given text, or it
raises an exception whose string rendering is the given message. -/
inductive CallOutcome where
  | returns (text : List Char)
  | raises (msg : List Char)
deriving DecidableEq

/-- User-visible Streamlit message events emitted by the code
(`st.error`, `st.warning`). -/
inductive UIEvent where
  | errorShown (msg : List Char)
  | warningShown (msg : List Char)
deriving DecidableEq

/-- Extraction step of `translate_to_asp` (app.py lines 39–43): if the
response text contains the three-backtick delimiter, take part `[1]` of the
split, delete the substrings `"asp"` and `"clingo"`, and strip; otherwise
fall back to the whole text stripped.  An out-of-range index is the
`Except.error` case (in Python, an `IndexError`). -/
def extractProgram (text : List Char) : Except (List Char) (List Char) :=
  if containsFence text then
    match (splitFence text)[1]? with
    | some part => Except.ok (pyStrip (removeClingo (removeAsp part)))
    | none => Except.error "list index out of range".toList
  else
    Except.ok (pyStrip text)

/-- Embedding of `translate_to_asp` (app.py lines 16–46), as a function of
the outcome of its remote call.  On a normal return it extracts the program
from the response text; on any exception inside the `try` block it shows a
user-visible error and returns `None` (here `none`).  The second component
collects the `st.error` events shown. -/
def translate_to_asp (call : CallOutcome) : Option (List Char) × List UIEvent :=
  match call with
  | CallOutcome.returns text =>
    match extractProgram text with
    | Except.ok prog => (some prog, [])
    | Except.error e => (none, [UIEvent.errorShown (translationErrorText e)])
  | CallOutcome.raises e => (none, [UIEvent.errorShown (translationErrorText e)])

/-- Observable behaviour of the external clingo engine on one
`add`/`ground`/`solve` run: either the run completes with the given
satisfiability verdict after the `on_model` callback was fired once per
discovered model (in discovery order), or some step raises an exception
after zero or more callbacks already fired. -/
inductive SolverBehavior where
  | completes (discovered : List (List Char)) (satisfiable : Bool)
  | raises (discovered : List (List Char)) (msg : List Char)
deriving DecidableEq

/-- Accumulation of the `models` list by the `on_model` callback
(app.py lines 52–56): starting from `[]`, each discovered model's string is
appended at the end. -/
def accumulateModels (discovered : List (List Char)) : List (List Char) :=
  discovered.foldl (fun ms m => ms ++ [m]) []

/-- Embedding of `run_clingo` (app.py lines 48–70), as a function of the
external solver's behaviour.  Satisfiable run: the accumulated model
strings.  Unsatisfiable run: the fixed sentinel.  Any exception: a
one-element list embedding the error detail (the models accumulated before
the exception are discarded). -/
def run_clingo (b : SolverBehavior) : List (List Char) :=
  match b with
  | SolverBehavior.completes discovered true => accumulateModels discovered
  | SolverBehavior.completes _ false => [unsatMessage]
  | SolverBehavior.raises _ e => [clingoErrorText e]

/-- Embedding of `interpret_solution` (app.py lines 72–96), as a function of
the outcome of its remote call: a normal return is passed through as the
explanation text; any exception is converted to an error-description
string. -/
def interpret_solution (call : CallOutcome) : List Char :=
  match call with
  | CallOutcome.returns text => text
  | CallOutcome.raises e => interpretationErrorText e

/-- Embedding of `get_gemini_client` (app.py lines 10–14): a client is
produced iff the key is non-empty and does not contain `"YOUR_API"`. -/
def get_gemini_client (apiKey : List Char) : Bool :=
  !(apiKey.isEmpty || containsYourApi apiKey)

/-- Pipeline stages that the button handler can invoke. -/
inductive Stage where
  | translator
  | solver
  | interpreter
deriving DecidableEq

/-- External-world fixture for one button press: the configured API key and
the behaviour of the two remote calls and of the solver run. -/
structure Env where
  apiKey : List Char
  translateCall : CallOutcome
  solver : SolverBehavior
  interpretCall : CallOutcome
deriving DecidableEq

/-- Observable result of one button press: which stages ran, which message
events were shown, and the values flowing between the stages. -/
structure HandlerResult where
  stages : List Stage
  events : List UIEvent
  asp_code : Option (List Char)
  models : Option (List (List Char))
  answer : Option (List Char)
deriving DecidableEq

/-- Embedding of the solve-button handler (app.py lines 111–138).
Python `if not query` is true exactly for the empty string, so only the
empty query short-circuits with a warning.  With a client available, the
three stages run unconditionally in sequence — the handler never checks
whether `translate_to_asp` returned `None`. -/
def solveButton (query : List Char) (env : Env) : HandlerResult :=
  if query.isEmpty then
    { stages := [], events := [UIEvent.warningShown enterQuestionMsg],
      asp_code := none, models := none, answer := none }
  else if get_gemini_client env.apiKey then
    let tr := translate_to_asp env.translateCall
    let ms := run_clingo env.solver
    let ans := interpret_solution env.interpretCall
    { stages := [Stage.translator, Stage.solver, Stage.interpreter],
      events := tr.2,
      asp_code := tr.1, models := some ms, answer := some ans }
  else
    { stages := [], events := [UIEvent.errorShown apiKeyMissingMsg],
      asp_code := none, models := none, answer := none }

/-- Unfolding of `splitFence` on a cons cell that does not start a fence. -/
theorem splitFence_cons_eq (c : Char) (t : List Char)
    (hne : ∀ t', c = '`' → t = '`' :: '`' :: t' → False) :
    splitFence (c :: t) =
      match splitFence t with
      | [] => [[c]]
      | h :: r => (c :: h) :: r := by
  rw [splitFence.eq_def]
  split
  · next t' heq =>
    exfalso
    have hc : c = '`' := by injection heq
    have ht : t = '`' :: '`' :: t' := by injection heq with _ h2
    exact hne t' hc ht
  · next x c' t' hcond heq =>
    injection heq with hc ht
    subst hc; subst ht; rfl
  · next heq => exact absurd heq (by simp)

/-- Unfolding of `containsFence` on a cons cell that does not start a
fence. -/
theorem containsFence_cons_eq (c : Char) (t : List Char)
    (hne : ∀ t', c = '`' → t = '`' :: '`' :: t' → False) :
    containsFence (c :: t) = containsFence t := by
  rw [containsFence.eq_def]
  split
  · next t' heq =>
    exfalso
    have hc : c = '`' := by injection heq
    have ht : t = '`' :: '`' :: t' := by injection heq with _ h2
    exact hne t' hc ht
  · next x c' t' hcond heq =>
    injection heq with hc ht
    subst ht; rfl
  · next heq => exact absurd heq (by simp)

/-- Unfolding of `countFence` on a cons cell that does not start a fence. -/
theorem countFence_cons_eq (c : Char) (t : List Char)
    (hne : ∀ t', c = '`' → t = '`' :: '`' :: t' → False) :
    countFence (c :: t) = countFence t := by
  rw [countFence.eq_def]
  split
  · next t' heq =>
    exfalso
    have hc : c = '`' := by injection heq
    have ht : t = '`' :: '`' :: t' := by injection heq with _ h2
    exact hne t' hc ht
  · next x c' t' hcond heq =>
    injection heq with hc ht
    subst ht; rfl
  · next heq => exact absurd heq (by simp)

/-- Splitting any text yields at least one part. -/
theorem splitFence_ne_nil (s : List Char) : splitFence s ≠ [] := by
  induction s using splitFence.induct with
  | case1 t ih => simp [splitFence]
  | case2 c t hne hnil ih => simp [splitFence, hnil]
  | case3 c t hne h r hcons ih => simp [splitFence, hcons]
  | case4 => simp [splitFence]

/-- When the delimiter occurs in the text, the split has at least two
parts. -/
theorem two_le_splitFence_of_containsFence (s : List Char)
    (h : containsFence s = true) : 2 ≤ (splitFence s).length := by
  induction s using splitFence.induct with
  | case1 t ih =>
    have h2 := splitFence_ne_nil t
    have h3 : 1 ≤ (splitFence t).length := by
      cases hs : splitFence t with
      | nil => exact absurd hs h2
      | cons a b => simp
    simp [splitFence]
    omega
  | case2 c t hne hnil ih => exact absurd hnil (splitFence_ne_nil t)
  | case3 c t hne hd r hcons ih =>
    rw [containsFence_cons_eq c t hne] at h
    have h4 := ih h
    rw [hcons] at h4
    rw [splitFence_cons_eq c t hne, hcons]
    simpa using h4
  | case4 => simp [containsFence] at h

/-- Extending a text on the left preserves containment of the delimiter. -/
theorem containsFence_cons_of (c : Char) (t : List Char)
    (h : containsFence t = true) : containsFence (c :: t) = true := by
  rw [containsFence.eq_def]
  split
  · rfl
  · next x c' t' hcond heq =>
    injection heq with hc ht
    subst ht; exact h
  · next heq => exact absurd heq (by simp)

/-- Any text with a fence delimiter somewhere after a prefix contains the
delimiter. -/
theorem containsFence_append_fence (mid rest : List Char) :
    containsFence (mid ++ "```".toList ++ rest) = true := by
  induction mid with
  | nil => rfl
  | cons c m' ih => exact containsFence_cons_of c _ ih

/-- Splitting a text that starts with a backtick-free part followed by the
delimiter peels off that part as the first chunk. -/
theorem splitFence_append_fence (mid rest : List Char)
    (hbt : ∀ c ∈ mid, c ≠ '`') :
    splitFence (mid ++ "```".toList ++ rest) = mid :: splitFence rest := by
  induction mid with
  | nil => rfl
  | cons c m' ih =>
    have hc : c ≠ '`' := hbt c (by simp)
    have ih' := ih (fun x hx => hbt x (by simp [hx]))
    rw [List.cons_append, List.cons_append,
      splitFence_cons_eq c _ (fun t' h1 _ => hc h1)]
    rw [List.append_assoc] at ih' ⊢
    rw [ih']

/-- A text with no delimiter occurrence splits into the single part which is
the whole text. -/
theorem splitFence_of_countFence_zero (s : List Char)
    (h : countFence s = 0) : splitFence s = [s] := by
  induction s using splitFence.induct with
  | case1 t ih => simp [countFence] at h
  | case2 c t hne hnil ih => exact absurd hnil (splitFence_ne_nil t)
  | case3 c t hne hd r hcons ih =>
    rw [countFence_cons_eq c t hne] at h
    have h4 := ih h
    rw [hcons] at h4
    injection h4 with h5 h6
    rw [splitFence_cons_eq c t hne, hcons, h5, h6]
  | case4 => rfl

/-- A text with exactly one delimiter occurrence decomposes as the part
before the delimiter, the delimiter, and the delimiter-free part after it,
and the split returns exactly those two parts. -/
theorem splitFence_of_countFence_one (s : List Char)
    (h : countFence s = 1) :
    ∃ pre post, s = pre ++ "```".toList ++ post ∧
      splitFence s = [pre, post] ∧ countFence post = 0 := by
  induction s using splitFence.induct with
  | case1 t ih =>
    have h0 : countFence t = 0 := by
      have : countFence t + 1 = 1 := by simpa [countFence] using h
      omega
    refine ⟨[], t, rfl, ?_, h0⟩
    rw [splitFence.eq_def]
    simp [splitFence_of_countFence_zero t h0]
  | case2 c t hne hnil ih => exact absurd hnil (splitFence_ne_nil t)
  | case3 c t hne hd r hcons ih =>
    rw [countFence_cons_eq c t hne] at h
    obtain ⟨pre, post, hdecomp, hsplit, hzero⟩ := ih h
    refine ⟨c :: pre, post, by simp [hdecomp], ?_, hzero⟩
    rw [splitFence_cons_eq c t hne, hsplit]
  | case4 => simp [countFence] at h

/-- A text with exactly one delimiter occurrence contains the delimiter. -/
theorem containsFence_of_countFence_one (s : List Char)
    (h : countFence s = 1) : containsFence s = true := by
  obtain ⟨pre, post, hdecomp, _, _⟩ := splitFence_of_countFence_one s h
  rw [hdecomp]
  exact containsFence_append_fence pre post

/-- Unfolding of `removeAsp` on a cons cell whose head is not `'a'`. -/
theorem removeAsp_cons_ne (c : Char) (t : List Char) (hc : c ≠ 'a') :
    removeAsp (c :: t) = c :: removeAsp t := by
  rw [removeAsp.eq_def]
  split
  · next t' heq =>
    exfalso
    exact hc (by injection heq)
  · next x c' t' hcond heq =>
    injection heq with h1 h2
    subst h1; subst h2; rfl
  · next heq => exact absurd heq (by simp)

/-- Unfolding of `removeClingo` on a cons cell whose head is not `'c'`. -/
theorem removeClingo_cons_ne (c : Char) (t : List Char) (hc : c ≠ 'c') :
    removeClingo (c :: t) = c :: removeClingo t := by
  rw [removeClingo.eq_def]
  split
  · next t' heq =>
    exfalso
    exact hc (by injection heq)
  · next x c' t' hcond heq =>
    injection heq with h1 h2
    subst h1; subst h2; rfl
  · next heq => exact absurd heq (by simp)

/-- Deleting `"asp"` from a text with no `"asp"` occurrence changes
nothing. -/
theorem removeAsp_of_not_containsAsp (s : List Char)
    (h : containsAsp s = false) : removeAsp s = s := by
  induction s using removeAsp.induct with
  | case1 t ih => simp [containsAsp] at h
  | case2 c t hne ih =>
    rw [containsAsp.eq_def] at h
    split at h
    · exact absurd h (by simp)
    · next x c' t' hcond heq =>
      injection heq with h1 h2
      rw [removeAsp.eq_def]
      split
      · next t'' heq2 =>
        exfalso
        have hca : c = 'a' := by injection heq2
        have hta : t = 's' :: 'p' :: t'' := by injection heq2 with _ h3
        exact hne t'' hca hta
      · next y c'' t'' hcond2 heq2 =>
        injection heq2 with h3 h4
        subst h3; subst h4
        rw [ih (h2 ▸ h)]
      · next y heq2 => exact absurd heq2 (by simp)
    · next heq => exact absurd heq (by simp)
  | case3 => rfl

/-- Deleting `"clingo"` from a text with no `"clingo"` occurrence changes
nothing. -/
theorem removeClingo_of_not_containsClingo (s : List Char)
    (h : containsClingo s = false) : removeClingo s = s := by
  induction s using removeClingo.induct with
  | case1 t ih => simp [containsClingo] at h
  | case2 c t hne ih =>
    rw [containsClingo.eq_def] at h
    split at h
    · exact absurd h (by simp)
    · next x c' t' hcond heq =>
      injection heq with h1 h2
      rw [removeClingo.eq_def]
      split
      · next t'' heq2 =>
        exfalso
        have hcc : c = 'c' := by injection heq2
        have htc : t = 'l' :: 'i' :: 'n' :: 'g' :: 'o' :: t'' := by
          injection heq2 with _ h3
        exact hne t'' hcc htc
      · next y c'' t'' hcond2 heq2 =>
        injection heq2 with h3 h4
        subst h3; subst h4
        rw [ih (h2 ▸ h)]
      · next y heq2 => exact absurd heq2 (by simp)
    · next heq => exact absurd heq (by simp)
  | case3 => rfl

/-- The `on_model` callback accumulation returns exactly the discovered
models in discovery order. -/
theorem accumulateModels_eq (discovered : List (List Char)) :
    accumulateModels discovered = discovered := by
  have h : ∀ (l : List (List Char)) (acc : List (List Char)),
      l.foldl (fun ms m => ms ++ [m]) acc = acc ++ l := by
    intro l
    induction l with
    | nil => intro acc; simp
    | cons x xs ih => intro acc; simp [List.foldl, ih]
  simpa using h discovered []

/-- Deleting the `"asp"` and `"clingo"` substrings from a block that starts
with one of the two language tags and continues with a body free of both
substrings yields exactly the body. -/
theorem removeClingo_removeAsp_tagged (tag body : List Char)
    (htag : tag = "asp".toList ∨ tag = "clingo".toList)
    (hasp : containsAsp body = false)
    (hclingo : containsClingo body = false) :
    removeClingo (removeAsp (tag ++ body)) = body := by
  rcases htag with h | h
  · subst h
    have e : "asp".toList ++ body = 'a' :: 's' :: 'p' :: body := rfl
    rw [e]
    have e2 : removeAsp ('a' :: 's' :: 'p' :: body) = removeAsp body := by
      simp [removeAsp]
    rw [e2, removeAsp_of_not_containsAsp body hasp,
      removeClingo_of_not_containsClingo body hclingo]
  · subst h
    have e : "clingo".toList ++ body =
        'c' :: 'l' :: 'i' :: 'n' :: 'g' :: 'o' :: body := rfl
    rw [e]
    have h1 : removeAsp ('c' :: 'l' :: 'i' :: 'n' :: 'g' :: 'o' :: body) =
        'c' :: 'l' :: 'i' :: 'n' :: 'g' :: 'o' :: removeAsp body := by
      rw [removeAsp_cons_ne 'c' _ (by decide), removeAsp_cons_ne 'l' _ (by decide),
        removeAsp_cons_ne 'i' _ (by decide), removeAsp_cons_ne 'n' _ (by decide),
        removeAsp_cons_ne 'g' _ (by decide), removeAsp_cons_ne 'o' _ (by decide)]
    rw [h1, removeAsp_of_not_containsAsp body hasp]
    have h2 : removeClingo ('c' :: 'l' :: 'i' :: 'n' :: 'g' :: 'o' :: body) =
        removeClingo body := by
      simp [removeClingo]
    rw [h2, removeClingo_of_not_containsClingo body hclingo]

/-- External-call fixture in which the translation call fails, used to
exercise the handler after a translation failure. -/
def envTranslateFails : Env :=
  { apiKey := "AIza-demo-key".toList,
    translateCall := CallOutcome.raises "503 service unavailable".toList,
    solver := SolverBehavior.raises [] "parsing failed".toList,
    interpretCall := CallOutcome.returns "No answer.".toList }

/-- External-call fixture in which every external service behaves well. -/
def envOkKey : Env :=
  { apiKey := "AIza-test-key".toList,
    translateCall := CallOutcome.returns "```asp\nseat(a).\n```".toList,
    solver := SolverBehavior.completes ["seat(a)".toList] true,
    interpretCall := CallOutcome.returns "A sits on the left.".toList }

/-- C4: for every program whose solve run is reported unsatisfiable,
`run_clingo` returns exactly the one-element list
`["UNSATISFIABLE (No solution found)"]`, whatever the callback reported
before the verdict. -/
theorem c4_run_clingo_unsat (discovered : List (List Char)) :
    run_clingo (SolverBehavior.completes discovered false) =
      ["UNSATISFIABLE (No solution found)".toList] := rfl

/-- C5: for every run in which loading, grounding or solving raises an
error, `run_clingo` returns (rather than propagates) a one-element list
whose single string is `"Clingo Error: "` followed by the error detail —
in particular that string starts with `"Clingo Error:"`. -/
theorem c5_run_clingo_error (discovered : List (List Char)) (e : List Char) :
    run_clingo (SolverBehavior.raises discovered e) =
      ["Clingo Error: ".toList ++ e] ∧
    "Clingo Error:".toList <+: ("Clingo Error: ".toList ++ e) :=
  ⟨rfl, ⟨" ".toList ++ e, by simp⟩⟩

/-- C6: for every satisfiable run, `run_clingo` returns the stringified
models exactly in the order the `on_model` callback discovered them; for a
run with exactly one model it returns the one-element list containing that
model. -/
theorem c6_run_clingo_sat (discovered : List (List Char)) :
    run_clingo (SolverBehavior.completes discovered true) = discovered ∧
    ∀ m : List Char, run_clingo (SolverBehavior.completes [m] true) = [m] := by
  constructor
  · exact accumulateModels_eq discovered
  · intro m
    exact accumulateModels_eq [m]

/-- C7: the two remote-call stages signal failure asymmetrically: when its
call raises, `translate_to_asp` shows a user-visible error and returns the
absent result `none`, whereas `interpret_solution` returns the string
`"Interpretation Error: "` followed by the detail; both are total functions
of the call outcome, so neither propagates the exception. -/
theorem c7_error_signal_asymmetry (e1 e2 : List Char) :
    (translate_to_asp (CallOutcome.raises e1)).1 = none ∧
    (translate_to_asp (CallOutcome.raises e1)).2 =
      [UIEvent.errorShown (translationErrorText e1)] ∧
    interpret_solution (CallOutcome.raises e2) = interpretationErrorText e2 ∧
    "Interpretation Error:".toList <+: interpret_solution (CallOutcome.raises e2) :=
  ⟨rfl, rfl, rfl, ⟨" ".toList ++ e2, by simp [interpret_solution, interpretationErrorText]⟩⟩

/-- C8: for every response text containing no triple-backtick delimiter,
`translate_to_asp` returns the full response text with only surrounding
whitespace trimmed; nothing else — in particular no `"asp"` or `"clingo"`
occurrence — is removed. -/
theorem c8_translate_no_fence (text : List Char)
    (h : containsFence text = false) :
    (translate_to_asp (CallOutcome.returns text)).1 = some (pyStrip text) := by
  simp [translate_to_asp, extractProgram, h]

/-- C8 witness: a concrete fence-free response containing both substrings
`"asp"` and `"clingo"` is returned whole (trimmed), with both substrings
still present. -/
theorem c8_translate_no_fence_witness :
    containsFence " answer asp clingo ".toList = false ∧
    (translate_to_asp (CallOutcome.returns " answer asp clingo ".toList)).1 =
      some (pyStrip " answer asp clingo ".toList) ∧
    pyStrip " answer asp clingo ".toList = "answer asp clingo".toList :=
  ⟨by decide, c8_translate_no_fence _ (by decide), by decide⟩

/-- C10: the index `[1]` taken by the extraction step is always in range:
whenever the delimiter occurs in the text the split has at least two parts,
and for every response text the extraction step returns a program rather
than an index error. -/
theorem c10_extract_index_safe (text : List Char) :
    (containsFence text = true → 2 ≤ (splitFence text).length) ∧
    ∃ prog, extractProgram text = Except.ok prog := by
  refine ⟨two_le_splitFence_of_containsFence text, ?_⟩
  by_cases h : containsFence text = true
  · have h2 := two_le_splitFence_of_containsFence text h
    rcases hg : (splitFence text)[1]? with _ | part
    · rw [List.getElem?_eq_none_iff] at hg
      omega
    · exact ⟨pyStrip (removeClingo (removeAsp part)),
        by simp [extractProgram, h, hg]⟩
  · have h' : containsFence text = false := by
      cases hx : containsFence text with
      | false => rfl
      | true => exact absurd hx h
    exact ⟨pyStrip text, by simp [extractProgram, h']⟩

/-- C10 witness: on a concrete fenced response the split has two parts and
extraction succeeds. -/
theorem c10_extract_index_safe_witness :
    2 ≤ (splitFence "```asp\na.\n```".toList).length ∧
    ∃ prog, extractProgram "```asp\na.\n```".toList = Except.ok prog :=
  ⟨(c10_extract_index_safe "```asp\na.\n```".toList).1 (by decide),
    (c10_extract_index_safe "```asp\na.\n```".toList).2⟩

/-- C9: for every response text containing exactly one occurrence of the
triple-backtick delimiter (counted by the same left-to-right scan Python's
`split` uses), `translate_to_asp` does not take the fallback path: the text
decomposes as the part before the delimiter, the delimiter, and the
delimiter-free remainder, the split is exactly those two parts, and the
returned program is that remainder with the `"asp"` and then the
`"clingo"` substrings deleted and whitespace trimmed. -/
theorem c9_translate_single_fence (text : List Char)
    (h : countFence text = 1) :
    ∃ pre post, text = pre ++ "```".toList ++ post ∧
      splitFence text = [pre, post] ∧ countFence post = 0 ∧
      (translate_to_asp (CallOutcome.returns text)).1 =
        some (pyStrip (removeClingo (removeAsp post))) := by
  obtain ⟨pre, post, hdec, hsplit, hzero⟩ := splitFence_of_countFence_one text h
  have hc := containsFence_of_countFence_one text h
  refine ⟨pre, post, hdec, hsplit, hzero, ?_⟩
  simp [translate_to_asp, extractProgram, hc, hsplit]

/-- C9 witness: a concrete response with a single delimiter; everything
after it is returned with `"asp"` deleted and trimmed. -/
theorem c9_translate_single_fence_witness :
    countFence "see below ```asp\nfact(a).\n".toList = 1 ∧
    ∃ pre post, "see below ```asp\nfact(a).\n".toList =
        pre ++ "```".toList ++ post ∧
      splitFence "see below ```asp\nfact(a).\n".toList = [pre, post] ∧
      countFence post = 0 ∧
      (translate_to_asp (CallOutcome.returns "see below ```asp\nfact(a).\n".toList)).1 =
        some (pyStrip (removeClingo (removeAsp post))) :=
  ⟨by decide, c9_translate_single_fence _ (by decide)⟩

/-- C2 counterexample: for the response `"```asp\nhasp.\n```"` the inner text
of the fenced block with the tag removed and whitespace trimmed is
`"hasp."`, but `translate_to_asp` returns `"h."`: the `"asp"` inside the
program word `hasp` is deleted too, so inner characters other than the tag
and fences are altered. -/
theorem c2_translate_tagged_block_counterexample :
    (translate_to_asp (CallOutcome.returns "```asp\nhasp.\n```".toList)).1 =
      some "h.".toList ∧
    pyStrip "\nhasp.\n".toList = "hasp.".toList ∧
    some "h.".toList ≠ some "hasp.".toList :=
  ⟨by rfl, by rfl, by decide⟩

/-- C2 (amended): for a response containing a well-formed fenced block
tagged `asp` or `clingo`, `translate_to_asp` returns the inner text with the
fence markers removed and every occurrence of the substrings `"asp"` and
`"clingo"` deleted, then trimmed; this equals exactly the inner text with
only the tag removed and trimmed whenever the block body contains no
occurrence of `"asp"` or `"clingo"` (and no backtick), as stated here. -/
theorem c2_translate_tagged_block (lead tag body rest : List Char)
    (hlead : ∀ c ∈ lead, c ≠ '`')
    (htag : tag = "asp".toList ∨ tag = "clingo".toList)
    (hbody : ∀ c ∈ body, c ≠ '`')
    (hasp : containsAsp body = false)
    (hclingo : containsClingo body = false) :
    (translate_to_asp (CallOutcome.returns
        (lead ++ "```".toList ++ tag ++ body ++ "```".toList ++ rest))).1 =
      some (pyStrip body) := by
  have hmid : ∀ c ∈ tag ++ body, c ≠ '`' := by
    intro c hc
    rcases List.mem_append.mp hc with h | h
    · rcases htag with ht | ht <;> subst ht
      · revert h
        have : ∀ c ∈ "asp".toList, c ≠ '`' := by decide
        exact this c
      · revert h
        have : ∀ c ∈ "clingo".toList, c ≠ '`' := by decide
        exact this c
    · exact hbody c h
  have e1 : lead ++ "```".toList ++ tag ++ body ++ "```".toList ++ rest =
      lead ++ "```".toList ++ ((tag ++ body) ++ "```".toList ++ rest) := by
    simp [List.append_assoc]
  have hsplit : splitFence
      (lead ++ "```".toList ++ tag ++ body ++ "```".toList ++ rest) =
      lead :: (tag ++ body) :: splitFence rest := by
    rw [e1, splitFence_append_fence lead _ hlead,
      splitFence_append_fence (tag ++ body) rest hmid]
  have hcont : containsFence
      (lead ++ "```".toList ++ tag ++ body ++ "```".toList ++ rest) = true := by
    rw [e1]
    exact containsFence_append_fence lead _
  have hget : (splitFence
      (lead ++ "```".toList ++ tag ++ body ++ "```".toList ++ rest))[1]? =
      some (tag ++ body) := by
    rw [hsplit]
    simp
  have hex : extractProgram
      (lead ++ "```".toList ++ tag ++ body ++ "```".toList ++ rest) =
      Except.ok (pyStrip body) := by
    unfold extractProgram
    rw [if_pos hcont, hget]
    show Except.ok (pyStrip (removeClingo (removeAsp (tag ++ body)))) =
      Except.ok (pyStrip body)
    rw [removeClingo_removeAsp_tagged tag body htag hasp hclingo]
  simp only [translate_to_asp]
  rw [hex]

/-- C2 witness: a concrete well-formed `asp`-tagged block whose body is free
of the two substrings is extracted exactly (tag and fences removed,
trimmed). -/
theorem c2_translate_tagged_block_witness :
    ((∀ c ∈ "Sure: ".toList, c ≠ '`') ∧
      (∀ c ∈ "\np :- q.\n".toList, c ≠ '`') ∧
      containsAsp "\np :- q.\n".toList = false ∧
      containsClingo "\np :- q.\n".toList = false) ∧
    (translate_to_asp (CallOutcome.returns
        ("Sure: ".toList ++ "```".toList ++ "asp".toList ++
          "\np :- q.\n".toList ++ "```".toList ++ "\nDone".toList))).1 =
      some (pyStrip "\np :- q.\n".toList) :=
  ⟨⟨by decide, by decide, by decide, by decide⟩,
    c2_translate_tagged_block _ _ _ _ (by decide) (Or.inl rfl)
      (by decide) (by decide) (by decide)⟩

/-- C1 counterexample: with a valid client and a failing translation call,
`translate_to_asp` returns `none`, yet the handler does not abort: both the
solver stage and the interpreter stage are invoked for the same request. -/
theorem c1_translate_failure_counterexample :
    (translate_to_asp envTranslateFails.translateCall).1 = none ∧
    Stage.solver ∈ (solveButton "Who sits on the left?".toList envTranslateFails).stages ∧
    Stage.interpreter ∈ (solveButton "Who sits on the left?".toList envTranslateFails).stages := by
  refine ⟨rfl, ?_, ?_⟩ <;> decide

/-- C1 (amended): when the Translator's remote call raises and
`translate_to_asp` therefore returns the absent result `none`, the pipeline
does not abort at the translation stage: with a nonempty query and an
available client the handler still invokes `run_clingo` and
`interpret_solution`, passing the absent program on (only the error message
shown inside `translate_to_asp` tells the user about the failure). -/
theorem c1_pipeline_continues_after_translate_failure
    (query : List Char) (env : Env)
    (hq : query ≠ [])
    (hc : get_gemini_client env.apiKey = true)
    (ht : (translate_to_asp env.translateCall).1 = none) :
    (solveButton query env).stages =
      [Stage.translator, Stage.solver, Stage.interpreter] ∧
    (solveButton query env).asp_code = none := by
  have hq' : query.isEmpty = false := by
    cases query with
    | nil => exact absurd rfl hq
    | cons a t => rfl
  constructor <;> simp [solveButton, hq', hc, ht]

/-- C1 witness: the amended behaviour at the concrete failing fixture. -/
theorem c1_pipeline_continues_witness :
    ("q".toList ≠ [] ∧
      get_gemini_client envTranslateFails.apiKey = true ∧
      (translate_to_asp envTranslateFails.translateCall).1 = none) ∧
    (solveButton "q".toList envTranslateFails).stages =
      [Stage.translator, Stage.solver, Stage.interpreter] ∧
    (solveButton "q".toList envTranslateFails).asp_code = none :=
  ⟨⟨by decide, by decide, by decide⟩,
    c1_pipeline_continues_after_translate_failure _ _
      (by decide) (by decide) (by decide)⟩

/-- C3 counterexample: the query consisting of one space is whitespace-only
and nonempty; Python's `if not query:` guard does not fire on it, so no
warning is shown and the translator stage is invoked. -/
theorem c3_whitespace_query_counterexample :
    (" ".toList ≠ [] ∧ ∀ c ∈ " ".toList, isPySpace c = true) ∧
    Stage.translator ∈ (solveButton " ".toList envOkKey).stages ∧
    (solveButton " ".toList envOkKey).events = [] := by
  refine ⟨⟨by decide, by decide⟩, by decide, by decide⟩

/-- C3 (amended): only the empty query is guarded: pressing solve with the
empty query shows the warning and invokes none of `translate_to_asp`,
`run_clingo`, `interpret_solution`; a whitespace-only but nonempty query is
not guarded and (with a client available) enters the full pipeline. -/
theorem c3_empty_query_guard (env : Env) :
    (solveButton [] env).stages = [] ∧
    (solveButton [] env).events = [UIEvent.warningShown enterQuestionMsg] ∧
    (∀ query : List Char, query ≠ [] → (∀ c ∈ query, isPySpace c = true) →
      get_gemini_client env.apiKey = true →
      (solveButton query env).stages =
        [Stage.translator, Stage.solver, Stage.interpreter]) := by
  refine ⟨rfl, rfl, ?_⟩
  intro query hq hws hc
  have hq' : query.isEmpty = false := by
    cases query with
    | nil => exact absurd rfl hq
    | cons a t => rfl
  simp [solveButton, hq', hc]

/-- C3 witness: the amended behaviour at a concrete fixture: the empty query
is guarded, the one-space query runs the whole pipeline. -/
theorem c3_empty_query_guard_witness :
    (" ".toList ≠ [] ∧ (∀ c ∈ " ".toList, isPySpace c = true) ∧
      get_gemini_client envOkKey.apiKey = true) ∧
    (solveButton [] envOkKey).stages = [] ∧
    (solveButton " ".toList envOkKey).stages =
      [Stage.translator, Stage.solver, Stage.interpreter] :=
  ⟨⟨by decide, by decide, by decide⟩,
    (c3_empty_query_guard envOkKey).1,
    (c3_empty_query_guard envOkKey).2.2 " ".toList
      (by decide) (by decide) (by decide)⟩
